import Mathlib

/-!
# Layout arithmetic of `onnxruntime/core/mlas/lib/qnbitgemm.h`

A shallow embedding of the helper functions and of the `PackedQuantBDataStruct`
constructor of `qnbitgemm.h`, together with the `MLAS_QNBIT_GEMM_DISPATCH`
table, and the properties of them that the specification relies on.

Machine integers (`size_t`, `uintptr_t`, byte addresses) are natural numbers
reduced modulo `2 ^ w`, where `w` is the width of the machine word in bits
(`w = 64` on AMD64 and ARM64, `w = 32` on IX86).  Pointers are byte addresses;
a pointer cast does not change the address.
-/

namespace QNBitGemm

/-! ## Unsigned machine arithmetic on `w`-bit words -/

/-- Unsigned `a + b` on `w`-bit words. -/
def uadd (w a b : Nat) : Nat := (a + b) % 2 ^ w

/-- Unsigned `a - b` on `w`-bit words (wraps below zero). -/
def usub (w a b : Nat) : Nat := (a % 2 ^ w + (2 ^ w - b % 2 ^ w)) % 2 ^ w

/-- Unsigned `a * b` on `w`-bit words. -/
def umul (w a b : Nat) : Nat := (a * b) % 2 ^ w

/-- Bitwise complement `~a` on `w`-bit words. -/
def unot (w a : Nat) : Nat := 2 ^ w - 1 - a % 2 ^ w

/-- Conversion of a (signed) `int` to `size_t` on `w`-bit words. -/
def intToSizeT (w : Nat) (i : Int) : Nat := (i % (2 : Int) ^ w).toNat

/-- The value of `sizeof(float)` on every target MLAS supports. -/
def sizeofFloat : Nat := 4

/-! ## Helper functions of `qnbitgemm.h` -/

/-- The function `MlasQNBitQuantBBlkSumAlignment()`: `return 16 * sizeof(float);` -/
def MlasQNBitQuantBBlkSumAlignment (w : Nat) : Nat := umul w 16 sizeofFloat

/-- The function `MlasQNBitBlkDataSizeInBytes(BlkBitWidth, BlkLen)`:
`return BlkLen * BlkBitWidth / 8;` -/
def MlasQNBitBlkDataSizeInBytes (w BlkBitWidth BlkLen : Nat) : Nat :=
  umul w BlkLen BlkBitWidth / 8

/-- The function `MlasAlignAddress(addr, alignment)`:
`(QuantBBlkSumAddr + alignment - 1) & (~(alignment - 1))`. -/
def MlasAlignAddress (w addr alignment : Nat) : Nat :=
  usub w (uadd w addr alignment) 1 &&& unot w (usub w alignment 1)

/-- Modelled from the spec: `MlasDivRoundup` is declared in `mlasi.h`, a header
included by `qnbitgemm.h` whose text is not available.  The specification
describes its two uses as
`ceil(N/16)` and `ceil(blockCount/2)`; it is taken here as the `size_t` round-up
quotient `(up + down - 1) / down`, the idiom `qnbitgemm.h` itself writes out as
`(CountN + 16 - 1) / 16`, which is that ceiling whenever `up + down - 1` does
not wrap. -/
def MlasDivRoundup (w up down : Nat) : Nat := usub w (uadd w up down) 1 / down

/-- The data members of `PackedQuantBDataStruct<T, BlkBitWidth>`. -/
structure PackedQuantBDataStruct where
  PackedQuantBData : Nat
  PackedQuantBScale : Nat
  QuantBBlkSum : Nat
  QuantBWorkspace_ : Nat
  N_ : Nat
  BlockCountK_ : Nat
  BlkLen_ : Nat
  deriving DecidableEq

/-- The local `PackedQuantBDataSize` of the constructor:
`N * BlockCountK * MlasQNBitBlkDataSizeInBytes(BlkBitWidth, BlkLen)`. -/
def PackedQuantBDataSize (w : Nat) (BlkBitWidth : Int) (N BlockCountK BlkLen : Nat) : Nat :=
  umul w (umul w N BlockCountK) (MlasQNBitBlkDataSizeInBytes w (intToSizeT w BlkBitWidth) BlkLen)

/-- The local `BlkSumSize` of the constructor:
`MlasDivRoundup(N, 16) * BlockCountK * 16 * sizeof(T)`. -/
def BlkSumSize (w sizeofT N BlockCountK : Nat) : Nat :=
  umul w (umul w (umul w (MlasDivRoundup w N 16) BlockCountK) 16) sizeofT

/-- The constructor `PackedQuantBDataStruct(PackedQuantBWorkspace, N, BlockCountK, BlkLen)`.
`amd64_ix86` tells whether `MLAS_TARGET_AMD64_IX86` is defined, `sizeofT` is
`sizeof(T)` and `BlkBitWidth` the `int` template argument. -/
def PackedQuantBDataStruct.construct (w : Nat) (amd64_ix86 : Bool) (sizeofT : Nat)
    (BlkBitWidth : Int) (PackedQuantBWorkspace N BlockCountK BlkLen : Nat) :
    PackedQuantBDataStruct :=
  let PackedQuantBDataSize := PackedQuantBDataSize w BlkBitWidth N BlockCountK BlkLen
  let BlkSumSize := BlkSumSize w sizeofT N BlockCountK
  let PackedQuantBData :=
    if amd64_ix86 then MlasAlignAddress w PackedQuantBWorkspace 32 else PackedQuantBWorkspace
  let QuantBBlkSum := uadd w PackedQuantBData PackedQuantBDataSize
  let QuantBBlkSum := MlasAlignAddress w QuantBBlkSum (MlasQNBitQuantBBlkSumAlignment w)
  let PackedQuantBScale := uadd w QuantBBlkSum BlkSumSize
  { PackedQuantBData := PackedQuantBData
    PackedQuantBScale := PackedQuantBScale
    QuantBBlkSum := QuantBBlkSum
    QuantBWorkspace_ := PackedQuantBWorkspace
    N_ := N
    BlockCountK_ := BlockCountK
    BlkLen_ := BlkLen }

/-- The function `MlasQNBitZeroPointsForBlksSizeInBytes<BlkBitWidth>(BlkCount)`:
`MlasDivRoundup(BlkCount, 2)` when `BlkBitWidth <= 4`, `BlkCount` otherwise. -/
def MlasQNBitZeroPointsForBlksSizeInBytes (w BlkBitWidth BlkCount : Nat) : Nat :=
  if BlkBitWidth ≤ 4 then MlasDivRoundup w BlkCount 2 else BlkCount

/-- The outcome of a call of `MlasQNBitBlkDataSizeInBytes` seen as a fallible
computation: `none` is a failed call, `some n` a returned size.  The source
function is a single `return` of an arithmetic expression, with no assertion
and no `throw`, so every call returns. -/
def MlasQNBitBlkDataSizeInBytes.outcome (w BlkBitWidth BlkLen : Nat) : Option Nat :=
  some (MlasQNBitBlkDataSizeInBytes w BlkBitWidth BlkLen)

/-! ## Sizes in the words of the specification (unbounded arithmetic) -/

/-- The size in bytes of the packed data sub-region:
`N * BlockCountK * MlasQNBitBlkDataSizeInBytes(BlkBitWidth, BlkLen)`, the
product taken in the natural numbers. -/
def dataSize (w : Nat) (BlkBitWidth : Int) (N BlockCountK BlkLen : Nat) : Nat :=
  N * BlockCountK * MlasQNBitBlkDataSizeInBytes w (intToSizeT w BlkBitWidth) BlkLen

/-- The size in bytes of the block-sum sub-region:
`ceil(N/16) * BlockCountK * 16 * sizeof(T)`, with the ceiling of the exact
quotient. -/
def blkSumSize (sizeofT N BlockCountK : Nat) : Nat :=
  ⌈(N : ℚ) / 16⌉₊ * BlockCountK * 16 * sizeofT

/-! ## The buffer size documented for the dequantize-B kernels -/

/-- The number of elements the documentation of
`Q4BitBlkDequantBForSgemm_CompFp32_Fn` and `Q4BitBlkDequantBForSgemm_CompFp16_Fn`
asks of `FpData`:
`(CountN + 16 - 1) / 16 * 16 * (CountK + BlkLen - 1) / BlkLen * BlkLen`,
read with the precedence of C (left to right) in `size_t` arithmetic. -/
def dequantBBufferElements (w CountN CountK BlkLen : Nat) : Nat :=
  umul w
    (umul w (umul w (usub w (uadd w CountN 16) 1 / 16) 16)
        (usub w (uadd w CountK BlkLen) 1) / BlkLen)
    BlkLen

/-- The number of useful elements named by the same documentation:
`(CountN + 16 - 1) / 16 * 16 * CountK`. -/
def dequantBUsefulElements (w CountN CountK : Nat) : Nat :=
  umul w (umul w (usub w (uadd w CountN 16) 1 / 16) 16) CountK

/-! ## The kernel dispatch structure -/

/-- A function pointer: `none` is `nullptr`, `some a` the address of a bound
implementation. -/
abbrev FnPtr := Option Nat

/-- The function-pointer members of `struct MLAS_QNBIT_GEMM_DISPATCH`, each with
its default member initializer `= nullptr`. -/
structure MLAS_QNBIT_GEMM_DISPATCH where
  Q4BitGemmPackQuantBDataSize : FnPtr := none
  Q8BitGemmPackQuantBDataSize : FnPtr := none
  SQ4BitGemmPackQuantBData : FnPtr := none
  HQ4BitGemmPackQuantBData : FnPtr := none
  SQ4BitGemmPackQuantBDataAndBlkSum : FnPtr := none
  SQ8BitGemmPackQuantBDataAndBlkSum : FnPtr := none
  QNBitGemmPerGemmWorkspaceSize : FnPtr := none
  QNBitGemmPerGemmWorkspaceAlignment : FnPtr := none
  SQ4BitGemmM1Kernel_CompFp32 : FnPtr := none
  SQ4BitBlkDequantBForSgemm_CompFp32 : FnPtr := none
  HQ4BitBlkDequantBForHgemm_CompFp16 : FnPtr := none
  SQ4BitGemmKernel_Packed_CompInt8 : FnPtr := none
  SQ4BitGemmKernel_BlkSum_CompInt8 : FnPtr := none
  SQ8BitGemmKernel_BlkSum_CompInt8 : FnPtr := none
  SQ4BitGemmKernel_CompInt8 : FnPtr := none
  UsePacked_CompInt8 : FnPtr := none
  QuantizeA_Packed_CompInt8 : FnPtr := none
  QuantizeARow_CompInt8 : FnPtr := none
  QuantizeARowComputeBlkSum_CompInt8 : FnPtr := none
  HQ4BitGemmKernel_CompFp16 : FnPtr := none
  deriving DecidableEq

/-- A default-constructed table, `MLAS_QNBIT_GEMM_DISPATCH d;`. -/
def MLAS_QNBIT_GEMM_DISPATCH.defaultConstructed : MLAS_QNBIT_GEMM_DISPATCH := {}

/-- The operation slots of a table, in the order of declaration. -/
def MLAS_QNBIT_GEMM_DISPATCH.slots (d : MLAS_QNBIT_GEMM_DISPATCH) : List FnPtr :=
  [d.Q4BitGemmPackQuantBDataSize, d.Q8BitGemmPackQuantBDataSize,
   d.SQ4BitGemmPackQuantBData, d.HQ4BitGemmPackQuantBData,
   d.SQ4BitGemmPackQuantBDataAndBlkSum, d.SQ8BitGemmPackQuantBDataAndBlkSum,
   d.QNBitGemmPerGemmWorkspaceSize, d.QNBitGemmPerGemmWorkspaceAlignment,
   d.SQ4BitGemmM1Kernel_CompFp32, d.SQ4BitBlkDequantBForSgemm_CompFp32,
   d.HQ4BitBlkDequantBForHgemm_CompFp16, d.SQ4BitGemmKernel_Packed_CompInt8,
   d.SQ4BitGemmKernel_BlkSum_CompInt8, d.SQ8BitGemmKernel_BlkSum_CompInt8,
   d.SQ4BitGemmKernel_CompInt8, d.UsePacked_CompInt8,
   d.QuantizeA_Packed_CompInt8, d.QuantizeARow_CompInt8,
   d.QuantizeARowComputeBlkSum_CompInt8, d.HQ4BitGemmKernel_CompFp16]

/-- The names of the operation slots. -/
inductive Slot where
  | Q4BitGemmPackQuantBDataSize
  | Q8BitGemmPackQuantBDataSize
  | SQ4BitGemmPackQuantBData
  | HQ4BitGemmPackQuantBData
  | SQ4BitGemmPackQuantBDataAndBlkSum
  | SQ8BitGemmPackQuantBDataAndBlkSum
  | QNBitGemmPerGemmWorkspaceSize
  | QNBitGemmPerGemmWorkspaceAlignment
  | SQ4BitGemmM1Kernel_CompFp32
  | SQ4BitBlkDequantBForSgemm_CompFp32
  | HQ4BitBlkDequantBForHgemm_CompFp16
  | SQ4BitGemmKernel_Packed_CompInt8
  | SQ4BitGemmKernel_BlkSum_CompInt8
  | SQ8BitGemmKernel_BlkSum_CompInt8
  | SQ4BitGemmKernel_CompInt8
  | UsePacked_CompInt8
  | QuantizeA_Packed_CompInt8
  | QuantizeARow_CompInt8
  | QuantizeARowComputeBlkSum_CompInt8
  | HQ4BitGemmKernel_CompFp16
  deriving DecidableEq

/-- Reading a member, `d.slot`. -/
def MLAS_QNBIT_GEMM_DISPATCH.read (d : MLAS_QNBIT_GEMM_DISPATCH) : Slot → FnPtr
  | .Q4BitGemmPackQuantBDataSize => d.Q4BitGemmPackQuantBDataSize
  | .Q8BitGemmPackQuantBDataSize => d.Q8BitGemmPackQuantBDataSize
  | .SQ4BitGemmPackQuantBData => d.SQ4BitGemmPackQuantBData
  | .HQ4BitGemmPackQuantBData => d.HQ4BitGemmPackQuantBData
  | .SQ4BitGemmPackQuantBDataAndBlkSum => d.SQ4BitGemmPackQuantBDataAndBlkSum
  | .SQ8BitGemmPackQuantBDataAndBlkSum => d.SQ8BitGemmPackQuantBDataAndBlkSum
  | .QNBitGemmPerGemmWorkspaceSize => d.QNBitGemmPerGemmWorkspaceSize
  | .QNBitGemmPerGemmWorkspaceAlignment => d.QNBitGemmPerGemmWorkspaceAlignment
  | .SQ4BitGemmM1Kernel_CompFp32 => d.SQ4BitGemmM1Kernel_CompFp32
  | .SQ4BitBlkDequantBForSgemm_CompFp32 => d.SQ4BitBlkDequantBForSgemm_CompFp32
  | .HQ4BitBlkDequantBForHgemm_CompFp16 => d.HQ4BitBlkDequantBForHgemm_CompFp16
  | .SQ4BitGemmKernel_Packed_CompInt8 => d.SQ4BitGemmKernel_Packed_CompInt8
  | .SQ4BitGemmKernel_BlkSum_CompInt8 => d.SQ4BitGemmKernel_BlkSum_CompInt8
  | .SQ8BitGemmKernel_BlkSum_CompInt8 => d.SQ8BitGemmKernel_BlkSum_CompInt8
  | .SQ4BitGemmKernel_CompInt8 => d.SQ4BitGemmKernel_CompInt8
  | .UsePacked_CompInt8 => d.UsePacked_CompInt8
  | .QuantizeA_Packed_CompInt8 => d.QuantizeA_Packed_CompInt8
  | .QuantizeARow_CompInt8 => d.QuantizeARow_CompInt8
  | .QuantizeARowComputeBlkSum_CompInt8 => d.QuantizeARowComputeBlkSum_CompInt8
  | .HQ4BitGemmKernel_CompFp16 => d.HQ4BitGemmKernel_CompFp16

/-- Assigning a member, `d.slot = f;`. -/
def MLAS_QNBIT_GEMM_DISPATCH.assign (d : MLAS_QNBIT_GEMM_DISPATCH) (s : Slot) (f : FnPtr) :
    MLAS_QNBIT_GEMM_DISPATCH :=
  match s with
  | .Q4BitGemmPackQuantBDataSize => { d with Q4BitGemmPackQuantBDataSize := f }
  | .Q8BitGemmPackQuantBDataSize => { d with Q8BitGemmPackQuantBDataSize := f }
  | .SQ4BitGemmPackQuantBData => { d with SQ4BitGemmPackQuantBData := f }
  | .HQ4BitGemmPackQuantBData => { d with HQ4BitGemmPackQuantBData := f }
  | .SQ4BitGemmPackQuantBDataAndBlkSum => { d with SQ4BitGemmPackQuantBDataAndBlkSum := f }
  | .SQ8BitGemmPackQuantBDataAndBlkSum => { d with SQ8BitGemmPackQuantBDataAndBlkSum := f }
  | .QNBitGemmPerGemmWorkspaceSize => { d with QNBitGemmPerGemmWorkspaceSize := f }
  | .QNBitGemmPerGemmWorkspaceAlignment => { d with QNBitGemmPerGemmWorkspaceAlignment := f }
  | .SQ4BitGemmM1Kernel_CompFp32 => { d with SQ4BitGemmM1Kernel_CompFp32 := f }
  | .SQ4BitBlkDequantBForSgemm_CompFp32 => { d with SQ4BitBlkDequantBForSgemm_CompFp32 := f }
  | .HQ4BitBlkDequantBForHgemm_CompFp16 => { d with HQ4BitBlkDequantBForHgemm_CompFp16 := f }
  | .SQ4BitGemmKernel_Packed_CompInt8 => { d with SQ4BitGemmKernel_Packed_CompInt8 := f }
  | .SQ4BitGemmKernel_BlkSum_CompInt8 => { d with SQ4BitGemmKernel_BlkSum_CompInt8 := f }
  | .SQ8BitGemmKernel_BlkSum_CompInt8 => { d with SQ8BitGemmKernel_BlkSum_CompInt8 := f }
  | .SQ4BitGemmKernel_CompInt8 => { d with SQ4BitGemmKernel_CompInt8 := f }
  | .UsePacked_CompInt8 => { d with UsePacked_CompInt8 := f }
  | .QuantizeA_Packed_CompInt8 => { d with QuantizeA_Packed_CompInt8 := f }
  | .QuantizeARow_CompInt8 => { d with QuantizeARow_CompInt8 := f }
  | .QuantizeARowComputeBlkSum_CompInt8 => { d with QuantizeARowComputeBlkSum_CompInt8 := f }
  | .HQ4BitGemmKernel_CompFp16 => { d with HQ4BitGemmKernel_CompFp16 := f }

/-- A table set up by a sequence of member assignments on a default-constructed
table, the way each target fills in its dispatch object. -/
def MLAS_QNBIT_GEMM_DISPATCH.setUp (assignments : List (Slot × FnPtr)) :
    MLAS_QNBIT_GEMM_DISPATCH :=
  assignments.foldl (fun d a => d.assign a.1 a.2) MLAS_QNBIT_GEMM_DISPATCH.defaultConstructed

/-! ## Machine arithmetic lemmas -/

theorem uadd_lt (w a b : Nat) : uadd w a b < 2 ^ w :=
  Nat.mod_lt _ (Nat.two_pow_pos w)

theorem uadd_eq {w a b : Nat} (h : a + b < 2 ^ w) : uadd w a b = a + b :=
  Nat.mod_eq_of_lt h

theorem umul_eq {w a b : Nat} (h : a * b < 2 ^ w) : umul w a b = a * b :=
  Nat.mod_eq_of_lt h

theorem umul_umul_left (w a b c : Nat) : umul w (umul w a b) c = umul w (a * b) c := by
  unfold umul
  rw [Nat.mul_mod, Nat.mod_mod, ← Nat.mul_mod]

/-- Subtracting one from a wrapped sum: `(x + a) - 1` on `w`-bit words is
`x + a - 1` reduced modulo `2 ^ w`. -/
theorem usub_uadd_one (w x a : Nat) (hw : 1 ≤ w) (ha : 1 ≤ a) :
    usub w (uadd w x a) 1 = (x + a - 1) % 2 ^ w := by
  have hM : 1 < 2 ^ w := Nat.one_lt_two_pow (by omega)
  unfold usub uadd
  generalize 2 ^ w = M at hM
  rw [Nat.mod_mod, Nat.mod_eq_of_lt hM]
  have hs : (x + a) % M + M * ((x + a) / M) = x + a := Nat.mod_add_div _ _
  have hr : (x + a) % M < M := Nat.mod_lt _ (by omega)
  generalize (x + a) % M = r at hs hr
  generalize (x + a) / M = q at hs
  rcases Nat.eq_zero_or_pos r with h0 | h0
  · subst h0
    obtain ⟨q', rfl⟩ : ∃ q', q = q' + 1 := by
      rcases q with _ | q'
      · simp at hs; omega
      · exact ⟨q', rfl⟩
    have e : x + a - 1 = (M - 1) + M * q' := by
      rw [Nat.mul_succ] at hs; omega
    rw [e, Nat.add_mul_mod_self_left, Nat.zero_add]
  · have e : x + a - 1 = (r - 1) + M * q := by omega
    have e2 : r + (M - 1) = (r - 1) + M * 1 := by omega
    rw [e, e2, Nat.add_mul_mod_self_left, Nat.add_mul_mod_self_left]

/-- Clearing the low `k` bits: and-ing a `w`-bit value with `~(2 ^ k - 1)`
subtracts its remainder modulo `2 ^ k`. -/
theorem land_unot_pow (w k y : Nat) (hk : k < w) (hy : y < 2 ^ w) :
    y &&& unot w (usub w (2 ^ k) 1) = y - y % 2 ^ k := by
  have hM : 1 < 2 ^ w := Nat.one_lt_two_pow (by omega)
  have hkw : 2 ^ k < 2 ^ w := Nat.pow_lt_pow_right (by omega) hk
  have hk1 : 1 ≤ 2 ^ k := Nat.two_pow_pos k
  have e1 : usub w (2 ^ k) 1 = 2 ^ k - 1 := by
    unfold usub
    rw [Nat.mod_eq_of_lt hkw, Nat.mod_eq_of_lt hM]
    have : 2 ^ k + (2 ^ w - 1) = (2 ^ k - 1) + 2 ^ w * 1 := by omega
    rw [this, Nat.add_mul_mod_self_left, Nat.mod_eq_of_lt (by omega)]
  have e2 : unot w (2 ^ k - 1) = 2 ^ w - (2 ^ k - 1 + 1) := by
    unfold unot
    rw [Nat.mod_eq_of_lt (by omega)]
    omega
  have e3 : y - y % 2 ^ k = 2 ^ k * (y / 2 ^ k) := by
    have := Nat.mod_add_div y (2 ^ k)
    omega
  rw [e1, e2, e3]
  apply Nat.eq_of_testBit_eq
  intro i
  rw [Nat.testBit_and, Nat.testBit_two_pow_sub_succ (by omega), Nat.testBit_two_pow_sub_one,
    Nat.testBit_mul_pow_two]
  by_cases hik : i < k
  · simp [hik, Nat.not_le_of_lt hik]
  · have hki : k ≤ i := Nat.le_of_not_lt hik
    have hdiv : (y / 2 ^ k).testBit (i - k) = y.testBit i := by
      rw [← Nat.shiftRight_eq_div_pow, Nat.testBit_shiftRight]
      congr 1
      omega
    by_cases hiw : i < w
    · simp [hik, hki, hiw, hdiv]
    · have : y.testBit i = false :=
        Nat.testBit_lt_two_pow (Nat.lt_of_lt_of_le hy
          (Nat.pow_le_pow_right (by omega) (Nat.le_of_not_lt hiw)))
      simp [hik, hki, hiw, hdiv, this]


/-! ## `MlasAlignAddress` at a power of two -/

theorem MlasAlignAddress_pow (w k x : Nat) (hk : k < w) :
    MlasAlignAddress w x (2 ^ k) =
      (x + 2 ^ k - 1) % 2 ^ w - (x + 2 ^ k - 1) % 2 ^ w % 2 ^ k := by
  unfold MlasAlignAddress
  rw [usub_uadd_one w x (2 ^ k) (by omega) (Nat.two_pow_pos k)]
  exact land_unot_pow w k _ hk (Nat.mod_lt _ (Nat.two_pow_pos w))

theorem MlasAlignAddress_dvd (w k x : Nat) (hk : k < w) :
    2 ^ k ∣ MlasAlignAddress w x (2 ^ k) := by
  rw [MlasAlignAddress_pow w k x hk]
  exact (Nat.dvd_sub_mod _)

theorem MlasAlignAddress_of_lt (w k x : Nat) (hk : k < w) (h : x + 2 ^ k - 1 < 2 ^ w) :
    MlasAlignAddress w x (2 ^ k) = (x + 2 ^ k - 1) / 2 ^ k * 2 ^ k := by
  rw [MlasAlignAddress_pow w k x hk, Nat.mod_eq_of_lt h]
  have := Nat.mod_add_div (x + 2 ^ k - 1) (2 ^ k)
  rw [Nat.mul_comm] at this
  omega

theorem two_pow_ge_128 {w : Nat} (hw : 7 ≤ w) : 128 ≤ 2 ^ w :=
  calc 128 = 2 ^ 7 := by norm_num
    _ ≤ 2 ^ w := Nat.pow_le_pow_right (by omega) hw

theorem MlasQNBitQuantBBlkSumAlignment_eq {w : Nat} (hw : 7 ≤ w) :
    MlasQNBitQuantBBlkSumAlignment w = 64 := by
  have := two_pow_ge_128 hw
  unfold MlasQNBitQuantBBlkSumAlignment umul sizeofFloat
  exact Nat.mod_eq_of_lt (by omega)

theorem align32_dvd {w : Nat} (hw : 7 ≤ w) (x : Nat) : 32 ∣ MlasAlignAddress w x 32 :=
  MlasAlignAddress_dvd w 5 x (by omega)

theorem align64_dvd {w : Nat} (hw : 7 ≤ w) (x : Nat) : 64 ∣ MlasAlignAddress w x 64 :=
  MlasAlignAddress_dvd w 6 x (by omega)

theorem align32_of_lt {w : Nat} (hw : 7 ≤ w) (x : Nat) (h : x + 31 < 2 ^ w) :
    MlasAlignAddress w x 32 = (x + 31) / 32 * 32 :=
  MlasAlignAddress_of_lt w 5 x (by omega) h

theorem align64_of_lt {w : Nat} (hw : 7 ≤ w) (x : Nat) (h : x + 63 < 2 ^ w) :
    MlasAlignAddress w x 64 = (x + 63) / 64 * 64 :=
  MlasAlignAddress_of_lt w 6 x (by omega) h

/-! ## The fields computed by the constructor -/

theorem construct_PackedQuantBData (w : Nat) (amd64_ix86 : Bool) (sizeofT : Nat)
    (BlkBitWidth : Int) (base N BlockCountK BlkLen : Nat) :
    (PackedQuantBDataStruct.construct w amd64_ix86 sizeofT BlkBitWidth base N BlockCountK
        BlkLen).PackedQuantBData =
      if amd64_ix86 then MlasAlignAddress w base 32 else base := rfl

theorem construct_QuantBBlkSum (w : Nat) (amd64_ix86 : Bool) (sizeofT : Nat)
    (BlkBitWidth : Int) (base N BlockCountK BlkLen : Nat) :
    (PackedQuantBDataStruct.construct w amd64_ix86 sizeofT BlkBitWidth base N BlockCountK
        BlkLen).QuantBBlkSum =
      MlasAlignAddress w
        (uadd w
          (PackedQuantBDataStruct.construct w amd64_ix86 sizeofT BlkBitWidth base N BlockCountK
            BlkLen).PackedQuantBData
          (PackedQuantBDataSize w BlkBitWidth N BlockCountK BlkLen))
        (MlasQNBitQuantBBlkSumAlignment w) := rfl

theorem construct_PackedQuantBScale (w : Nat) (amd64_ix86 : Bool) (sizeofT : Nat)
    (BlkBitWidth : Int) (base N BlockCountK BlkLen : Nat) :
    (PackedQuantBDataStruct.construct w amd64_ix86 sizeofT BlkBitWidth base N BlockCountK
        BlkLen).PackedQuantBScale =
      uadd w
        (PackedQuantBDataStruct.construct w amd64_ix86 sizeofT BlkBitWidth base N BlockCountK
          BlkLen).QuantBBlkSum
        (BlkSumSize w sizeofT N BlockCountK) := rfl

/-! ## Alignment of the located pointers -/

/-- C1: the pointers located by the `PackedQuantBDataStruct` constructor satisfy
their alignments for every base address, `N`, `BlockCountK` and `BlkLen`: with
`MLAS_TARGET_AMD64_IX86` defined `PackedQuantBData` is a multiple of 32, and in
every configuration `QuantBBlkSum` is a multiple of
`MlasQNBitQuantBBlkSumAlignment() = 16 * sizeof(float) = 64`, whatever the
alignment of the base address (and even when the address arithmetic wraps). -/
theorem C1_pointers_aligned (w : Nat) (hw : 7 ≤ w) (sizeofT : Nat) (BlkBitWidth : Int)
    (base N BlockCountK BlkLen : Nat) :
    32 ∣ (PackedQuantBDataStruct.construct w true sizeofT BlkBitWidth base N BlockCountK
        BlkLen).PackedQuantBData ∧
    MlasQNBitQuantBBlkSumAlignment w = 16 * sizeofFloat ∧
    MlasQNBitQuantBBlkSumAlignment w = 64 ∧
    ∀ amd64_ix86 : Bool,
      MlasQNBitQuantBBlkSumAlignment w ∣
        (PackedQuantBDataStruct.construct w amd64_ix86 sizeofT BlkBitWidth base N BlockCountK
          BlkLen).QuantBBlkSum := by
  have h64 := MlasQNBitQuantBBlkSumAlignment_eq hw
  refine ⟨?_, ?_, h64, ?_⟩
  · rw [construct_PackedQuantBData]
    exact align32_dvd hw base
  · rw [h64]; rfl
  · intro amd64_ix86
    rw [construct_QuantBBlkSum, h64]
    exact align64_dvd hw _

/-- Witness of C1 on a 64-bit target, at the misaligned base address 1001. -/
theorem C1_pointers_aligned_witness :
    7 ≤ 64 ∧
    (PackedQuantBDataStruct.construct 64 true 4 4 1001 17 3 32).PackedQuantBData = 1024 ∧
    (PackedQuantBDataStruct.construct 64 true 4 4 1001 17 3 32).QuantBBlkSum = 1856 ∧
    32 ∣ (PackedQuantBDataStruct.construct 64 true 4 4 1001 17 3 32).PackedQuantBData ∧
    MlasQNBitQuantBBlkSumAlignment 64 = 16 * sizeofFloat ∧
    MlasQNBitQuantBBlkSumAlignment 64 = 64 ∧
    ∀ amd64_ix86 : Bool,
      MlasQNBitQuantBBlkSumAlignment 64 ∣
        (PackedQuantBDataStruct.construct 64 amd64_ix86 4 4 1001 17 3 32).QuantBBlkSum :=
  ⟨by decide, by decide, by decide, C1_pointers_aligned 64 (by decide) 4 4 1001 17 3 32⟩

/-! ## Ceilings and sizes -/

/-- The round-up quotient in the natural numbers is the ceiling of the exact
quotient. -/
theorem natCeil_div (n d : Nat) (hd : 0 < d) : ⌈(n : ℚ) / d⌉₊ = (n + d - 1) / d := by
  have hd' : (0 : ℚ) < d := by exact_mod_cast hd
  apply le_antisymm
  · rw [Nat.ceil_le, div_le_iff₀ hd']
    have h1 : n ≤ (n + d - 1) / d * d := by
      have h := Nat.mod_add_div (n + d - 1) d
      have h' := Nat.mod_lt (n + d - 1) hd
      rw [Nat.mul_comm ((n + d - 1) / d) d]
      generalize d * ((n + d - 1) / d) = t at h ⊢
      omega
    exact_mod_cast h1
  · rw [Nat.div_le_iff_le_mul_add_pred hd]
    have h2 : (n : ℚ) ≤ d * ⌈(n : ℚ) / d⌉₊ := by
      have := Nat.le_ceil ((n : ℚ) / d)
      rw [div_le_iff₀ hd'] at this
      linarith
    have h3 : n ≤ d * ⌈(n : ℚ) / d⌉₊ := by exact_mod_cast h2
    omega

theorem natCeil_div16 (N : Nat) : ⌈(N : ℚ) / 16⌉₊ = (N + 15) / 16 := by
  have := natCeil_div N 16 (by norm_num)
  simpa using this

theorem natCeil_div2 (n : Nat) : ⌈(n : ℚ) / 2⌉₊ = (n + 1) / 2 := by
  have := natCeil_div n 2 (by norm_num)
  simpa using this

theorem MlasDivRoundup_of_lt (w up down : Nat) (hw : 1 ≤ w) (hd : 1 ≤ down)
    (h : up + down - 1 < 2 ^ w) : MlasDivRoundup w up down = (up + down - 1) / down := by
  unfold MlasDivRoundup
  rw [usub_uadd_one w up down hw hd, Nat.mod_eq_of_lt h]

theorem blkSumSize_eq (sizeofT N BlockCountK : Nat) :
    blkSumSize sizeofT N BlockCountK = (N + 15) / 16 * BlockCountK * 16 * sizeofT := by
  unfold blkSumSize
  rw [natCeil_div16]

theorem BlkSumSize_eq_blkSumSize (w sizeofT N BlockCountK : Nat) (hw : 1 ≤ w)
    (hN : N + 16 - 1 < 2 ^ w) (h : blkSumSize sizeofT N BlockCountK < 2 ^ w) :
    BlkSumSize w sizeofT N BlockCountK = blkSumSize sizeofT N BlockCountK := by
  rw [blkSumSize_eq] at h ⊢
  unfold BlkSumSize
  rw [MlasDivRoundup_of_lt w N 16 hw (by omega) hN]
  simp only [umul_umul_left]
  exact umul_eq h

theorem PackedQuantBDataSize_eq_dataSize (w : Nat) (BlkBitWidth : Int)
    (N BlockCountK BlkLen : Nat) (h : dataSize w BlkBitWidth N BlockCountK BlkLen < 2 ^ w) :
    PackedQuantBDataSize w BlkBitWidth N BlockCountK BlkLen =
      dataSize w BlkBitWidth N BlockCountK BlkLen := by
  unfold PackedQuantBDataSize
  rw [umul_umul_left]
  exact umul_eq h

theorem PackedQuantBDataSize_lt (w : Nat) (BlkBitWidth : Int) (N BlockCountK BlkLen : Nat) :
    PackedQuantBDataSize w BlkBitWidth N BlockCountK BlkLen < 2 ^ w :=
  Nat.mod_lt _ (Nat.two_pow_pos w)

/-! ## The layout when no address computation wraps -/

theorem construct_PackedQuantBData_of_lt (w : Nat) (hw : 7 ≤ w) (amd64_ix86 : Bool)
    (sizeofT : Nat) (BlkBitWidth : Int) (base N BlockCountK BlkLen : Nat)
    (hbase : amd64_ix86 = true → base + 32 - 1 < 2 ^ w) :
    (PackedQuantBDataStruct.construct w amd64_ix86 sizeofT BlkBitWidth base N BlockCountK
        BlkLen).PackedQuantBData =
      if amd64_ix86 then (base + 31) / 32 * 32 else base := by
  rw [construct_PackedQuantBData]
  cases amd64_ix86 with
  | false => rfl
  | true => simpa using align32_of_lt hw base (hbase rfl)

theorem construct_QuantBBlkSum_of_lt (w : Nat) (hw : 7 ≤ w) (amd64_ix86 : Bool)
    (sizeofT : Nat) (BlkBitWidth : Int) (base N BlockCountK BlkLen : Nat)
    (hdata : (PackedQuantBDataStruct.construct w amd64_ix86 sizeofT BlkBitWidth base N
        BlockCountK BlkLen).PackedQuantBData +
      PackedQuantBDataSize w BlkBitWidth N BlockCountK BlkLen + 64 - 1 < 2 ^ w) :
    (PackedQuantBDataStruct.construct w amd64_ix86 sizeofT BlkBitWidth base N BlockCountK
        BlkLen).QuantBBlkSum =
      ((PackedQuantBDataStruct.construct w amd64_ix86 sizeofT BlkBitWidth base N BlockCountK
        BlkLen).PackedQuantBData +
        PackedQuantBDataSize w BlkBitWidth N BlockCountK BlkLen + 63) / 64 * 64 := by
  rw [construct_QuantBBlkSum, MlasQNBitQuantBBlkSumAlignment_eq hw, uadd_eq (by omega)]
  exact align64_of_lt hw _ (by omega)

theorem construct_PackedQuantBScale_of_lt (w : Nat) (amd64_ix86 : Bool)
    (sizeofT : Nat) (BlkBitWidth : Int) (base N BlockCountK BlkLen : Nat)
    (hsum : (PackedQuantBDataStruct.construct w amd64_ix86 sizeofT BlkBitWidth base N
        BlockCountK BlkLen).QuantBBlkSum + BlkSumSize w sizeofT N BlockCountK < 2 ^ w) :
    (PackedQuantBDataStruct.construct w amd64_ix86 sizeofT BlkBitWidth base N BlockCountK
        BlkLen).PackedQuantBScale =
      (PackedQuantBDataStruct.construct w amd64_ix86 sizeofT BlkBitWidth base N BlockCountK
        BlkLen).QuantBBlkSum + BlkSumSize w sizeofT N BlockCountK := by
  rw [construct_PackedQuantBScale, uadd_eq hsum]

/-! ## Order, bounds and placement of the sub-regions -/

/-- C2: when no address computation wraps, the three sub-regions located by the
constructor are in order and do not overlap: `base <= PackedQuantBData`,
`PackedQuantBData + dataSize <= QuantBBlkSum` and
`QuantBBlkSum + blkSumSize <= PackedQuantBScale`, with
`dataSize = N * BlockCountK * MlasQNBitBlkDataSizeInBytes(BlkBitWidth, BlkLen)`
and `blkSumSize = ceil(N/16) * BlockCountK * 16 * sizeof(T)`. -/
theorem C2_subregions_in_order (w : Nat) (hw : 7 ≤ w) (amd64_ix86 : Bool) (sizeofT : Nat)
    (BlkBitWidth : Int) (base N BlockCountK BlkLen : Nat) (s : PackedQuantBDataStruct)
    (hs : s = PackedQuantBDataStruct.construct w amd64_ix86 sizeofT BlkBitWidth base N
      BlockCountK BlkLen)
    (hN : N + 16 - 1 < 2 ^ w)
    (hbase : amd64_ix86 = true → base + 32 - 1 < 2 ^ w)
    (hdata : s.PackedQuantBData + dataSize w BlkBitWidth N BlockCountK BlkLen + 64 - 1 < 2 ^ w)
    (hsum : s.QuantBBlkSum + blkSumSize sizeofT N BlockCountK < 2 ^ w) :
    base ≤ s.PackedQuantBData ∧
    s.PackedQuantBData + dataSize w BlkBitWidth N BlockCountK BlkLen ≤ s.QuantBBlkSum ∧
    s.QuantBBlkSum + blkSumSize sizeofT N BlockCountK ≤ s.PackedQuantBScale := by
  subst hs
  have hD := PackedQuantBDataSize_eq_dataSize w BlkBitWidth N BlockCountK BlkLen (by omega)
  have hS := BlkSumSize_eq_blkSumSize w sizeofT N BlockCountK (by omega) hN (by omega)
  have hp := construct_PackedQuantBData_of_lt w hw amd64_ix86 sizeofT BlkBitWidth base N
    BlockCountK BlkLen hbase
  have hq := construct_QuantBBlkSum_of_lt w hw amd64_ix86 sizeofT BlkBitWidth base N
    BlockCountK BlkLen (by rw [hD]; exact hdata)
  have hr := construct_PackedQuantBScale_of_lt w amd64_ix86 sizeofT BlkBitWidth base N
    BlockCountK BlkLen (by rw [hS]; exact hsum)
  rw [hD] at hq
  rw [hS] at hr
  cases amd64_ix86 <;> simp only [Bool.false_eq_true, if_false, if_true] at hp <;> omega

/-- Witness of C2 on a 64-bit AMD64 target, at the misaligned base address 1001. -/
theorem C2_subregions_in_order_witness :
    1001 ≤ (PackedQuantBDataStruct.construct 64 true 4 4 1001 17 3 32).PackedQuantBData ∧
    (PackedQuantBDataStruct.construct 64 true 4 4 1001 17 3 32).PackedQuantBData +
        dataSize 64 4 17 3 32 ≤
      (PackedQuantBDataStruct.construct 64 true 4 4 1001 17 3 32).QuantBBlkSum ∧
    (PackedQuantBDataStruct.construct 64 true 4 4 1001 17 3 32).QuantBBlkSum +
        blkSumSize 4 17 3 ≤
      (PackedQuantBDataStruct.construct 64 true 4 4 1001 17 3 32).PackedQuantBScale :=
  C2_subregions_in_order 64 (by decide) true 4 4 1001 17 3 32 _ rfl (by decide)
    (fun _ => by decide) (by decide) (by rw [blkSumSize_eq]; decide)

/-- C3: if the caller's region is
`[base, base + dataSize + blockSumSize + 2*(64 - 1) + scaleSize)`, with the sizes
the constructor computes, and lies in the address space, then the sub-regions
located by the constructor lie inside it, one after the other:
`PackedQuantBData >= base` and `PackedQuantBScale + scaleSize` is at most the
end of the region. -/
theorem C3_subregions_within_region (w : Nat) (hw : 7 ≤ w) (amd64_ix86 : Bool)
    (sizeofT : Nat) (BlkBitWidth : Int) (base N BlockCountK BlkLen scaleSize : Nat)
    (s : PackedQuantBDataStruct)
    (hs : s = PackedQuantBDataStruct.construct w amd64_ix86 sizeofT BlkBitWidth base N
      BlockCountK BlkLen)
    (hregion : base + PackedQuantBDataSize w BlkBitWidth N BlockCountK BlkLen +
      BlkSumSize w sizeofT N BlockCountK + 2 * (64 - 1) + scaleSize ≤ 2 ^ w) :
    base ≤ s.PackedQuantBData ∧
    s.PackedQuantBData + PackedQuantBDataSize w BlkBitWidth N BlockCountK BlkLen ≤
      s.QuantBBlkSum ∧
    s.QuantBBlkSum + BlkSumSize w sizeofT N BlockCountK ≤ s.PackedQuantBScale ∧
    s.PackedQuantBScale + scaleSize ≤
      base + PackedQuantBDataSize w BlkBitWidth N BlockCountK BlkLen +
        BlkSumSize w sizeofT N BlockCountK + 2 * (64 - 1) + scaleSize := by
  subst hs
  have hp := construct_PackedQuantBData_of_lt w hw amd64_ix86 sizeofT BlkBitWidth base N
    BlockCountK BlkLen (fun _ => by omega)
  have hq := construct_QuantBBlkSum_of_lt w hw amd64_ix86 sizeofT BlkBitWidth base N
    BlockCountK BlkLen
    (by cases amd64_ix86 <;> simp only [Bool.false_eq_true, if_false, if_true] at hp <;> omega)
  have hr := construct_PackedQuantBScale_of_lt w amd64_ix86 sizeofT BlkBitWidth base N
    BlockCountK BlkLen
    (by cases amd64_ix86 <;> simp only [Bool.false_eq_true, if_false, if_true] at hp <;> omega)
  cases amd64_ix86 <;> simp only [Bool.false_eq_true, if_false, if_true] at hp <;> omega

/-- Witness of C3 on a 64-bit AMD64 target: a region at the misaligned base
address 1001 with a scale array of 204 bytes. -/
theorem C3_subregions_within_region_witness :
    1001 ≤ (PackedQuantBDataStruct.construct 64 true 4 4 1001 17 3 32).PackedQuantBData ∧
    (PackedQuantBDataStruct.construct 64 true 4 4 1001 17 3 32).PackedQuantBData +
        PackedQuantBDataSize 64 4 17 3 32 ≤
      (PackedQuantBDataStruct.construct 64 true 4 4 1001 17 3 32).QuantBBlkSum ∧
    (PackedQuantBDataStruct.construct 64 true 4 4 1001 17 3 32).QuantBBlkSum +
        BlkSumSize 64 4 17 3 ≤
      (PackedQuantBDataStruct.construct 64 true 4 4 1001 17 3 32).PackedQuantBScale ∧
    (PackedQuantBDataStruct.construct 64 true 4 4 1001 17 3 32).PackedQuantBScale + 204 ≤
      1001 + PackedQuantBDataSize 64 4 17 3 32 + BlkSumSize 64 4 17 3 + 2 * (64 - 1) + 204 :=
  C3_subregions_within_region 64 (by decide) true 4 4 1001 17 3 32 204 _ rfl (by decide)

/-- C4: when no address computation wraps, each sub-region is placed at the
lowest address allowed: with `MLAS_TARGET_AMD64_IX86` defined `PackedQuantBData`
is the least multiple of 32 that is `>= base` (at most `base + 31`), and it is
`base` itself otherwise; `QuantBBlkSum` is the least multiple of 64 that is
`>= PackedQuantBData + dataSize` (at most 63 bytes of padding); and
`PackedQuantBScale` is exactly `QuantBBlkSum + blkSumSize`. -/
theorem C4_lowest_addresses (w : Nat) (hw : 7 ≤ w) (amd64_ix86 : Bool) (sizeofT : Nat)
    (BlkBitWidth : Int) (base N BlockCountK BlkLen : Nat) (s : PackedQuantBDataStruct)
    (hs : s = PackedQuantBDataStruct.construct w amd64_ix86 sizeofT BlkBitWidth base N
      BlockCountK BlkLen)
    (hN : N + 16 - 1 < 2 ^ w)
    (hbase : amd64_ix86 = true → base + 32 - 1 < 2 ^ w)
    (hdata : s.PackedQuantBData + dataSize w BlkBitWidth N BlockCountK BlkLen + 64 - 1 < 2 ^ w)
    (hsum : s.QuantBBlkSum + blkSumSize sizeofT N BlockCountK < 2 ^ w) :
    (amd64_ix86 = true →
      IsLeast {m : Nat | 32 ∣ m ∧ base ≤ m} s.PackedQuantBData ∧
        s.PackedQuantBData ≤ base + 31) ∧
    (amd64_ix86 = false → s.PackedQuantBData = base) ∧
    IsLeast {m : Nat | 64 ∣ m ∧
        s.PackedQuantBData + dataSize w BlkBitWidth N BlockCountK BlkLen ≤ m}
      s.QuantBBlkSum ∧
    s.QuantBBlkSum - (s.PackedQuantBData + dataSize w BlkBitWidth N BlockCountK BlkLen) ≤ 63 ∧
    s.PackedQuantBScale = s.QuantBBlkSum + blkSumSize sizeofT N BlockCountK := by
  subst hs
  have hD := PackedQuantBDataSize_eq_dataSize w BlkBitWidth N BlockCountK BlkLen (by omega)
  have hS := BlkSumSize_eq_blkSumSize w sizeofT N BlockCountK (by omega) hN (by omega)
  have hp := construct_PackedQuantBData_of_lt w hw amd64_ix86 sizeofT BlkBitWidth base N
    BlockCountK BlkLen hbase
  have hq := construct_QuantBBlkSum_of_lt w hw amd64_ix86 sizeofT BlkBitWidth base N
    BlockCountK BlkLen (by rw [hD]; exact hdata)
  have hr := construct_PackedQuantBScale_of_lt w amd64_ix86 sizeofT BlkBitWidth base N
    BlockCountK BlkLen (by rw [hS]; exact hsum)
  rw [hD] at hq
  rw [hS] at hr
  refine ⟨?_, ?_, ⟨⟨?_, ?_⟩, ?_⟩, ?_, hr⟩
  · intro h
    subst h
    rw [if_pos rfl] at hp
    refine ⟨⟨⟨?_, ?_⟩, ?_⟩, ?_⟩
    · omega
    · omega
    · rintro m ⟨hm1, hm2⟩
      omega
    · omega
  · intro h
    subst h
    simpa using hp
  · omega
  · omega
  · rintro m ⟨hm1, hm2⟩
    omega
  · omega

/-- Witness of C4 on a 64-bit AMD64 target, at the misaligned base address 1001. -/
theorem C4_lowest_addresses_witness :
    (true = true →
      IsLeast {m : Nat | 32 ∣ m ∧ 1001 ≤ m}
          (PackedQuantBDataStruct.construct 64 true 4 4 1001 17 3 32).PackedQuantBData ∧
        (PackedQuantBDataStruct.construct 64 true 4 4 1001 17 3 32).PackedQuantBData ≤
          1001 + 31) ∧
    (true = false →
      (PackedQuantBDataStruct.construct 64 true 4 4 1001 17 3 32).PackedQuantBData = 1001) ∧
    IsLeast {m : Nat | 64 ∣ m ∧
        (PackedQuantBDataStruct.construct 64 true 4 4 1001 17 3 32).PackedQuantBData +
          dataSize 64 4 17 3 32 ≤ m}
      (PackedQuantBDataStruct.construct 64 true 4 4 1001 17 3 32).QuantBBlkSum ∧
    (PackedQuantBDataStruct.construct 64 true 4 4 1001 17 3 32).QuantBBlkSum -
        ((PackedQuantBDataStruct.construct 64 true 4 4 1001 17 3 32).PackedQuantBData +
          dataSize 64 4 17 3 32) ≤ 63 ∧
    (PackedQuantBDataStruct.construct 64 true 4 4 1001 17 3 32).PackedQuantBScale =
      (PackedQuantBDataStruct.construct 64 true 4 4 1001 17 3 32).QuantBBlkSum +
        blkSumSize 4 17 3 :=
  C4_lowest_addresses 64 (by decide) true 4 4 1001 17 3 32 _ rfl (by decide)
    (fun _ => by decide) (by decide) (by rw [blkSumSize_eq]; decide)

/-! ## Block sizes -/

theorem one_le_of_lt_two_pow (w n : Nat) (h : n + 1 < 2 ^ w) : 1 ≤ w := by
  rcases Nat.eq_zero_or_pos w with h0 | h0
  · subst h0
    simp at h
  · exact h0

/-- C5: when `BlkLen * BlkBitWidth` does not overflow,
`MlasQNBitBlkDataSizeInBytes(BlkBitWidth, BlkLen)` returns
`BlkLen * BlkBitWidth / 8`, and when the product is moreover a multiple of 8,
eight times the result is the product exactly: no bit of the block is lost. -/
theorem C5_block_data_size (w BlkBitWidth BlkLen : Nat)
    (hov : BlkLen * BlkBitWidth < 2 ^ w) :
    MlasQNBitBlkDataSizeInBytes w BlkBitWidth BlkLen = BlkLen * BlkBitWidth / 8 ∧
    (8 ∣ BlkLen * BlkBitWidth →
      8 * MlasQNBitBlkDataSizeInBytes w BlkBitWidth BlkLen = BlkLen * BlkBitWidth) := by
  have h : MlasQNBitBlkDataSizeInBytes w BlkBitWidth BlkLen = BlkLen * BlkBitWidth / 8 := by
    unfold MlasQNBitBlkDataSizeInBytes
    rw [umul_eq hov]
  refine ⟨h, fun h8 => ?_⟩
  rw [h]
  exact Nat.mul_div_cancel' h8

/-- Witness of C5: 16 bytes for 4-bit blocks of 32 values, 32 bytes for 8-bit
blocks of 32 values. -/
theorem C5_block_data_size_witness :
    MlasQNBitBlkDataSizeInBytes 64 4 32 = 16 ∧
    MlasQNBitBlkDataSizeInBytes 64 8 32 = 32 ∧
    8 * MlasQNBitBlkDataSizeInBytes 64 4 32 = 32 * 4 ∧
    8 * MlasQNBitBlkDataSizeInBytes 64 8 32 = 32 * 8 :=
  ⟨by decide, by decide, (C5_block_data_size 64 4 32 (by decide)).2 (by decide),
    (C5_block_data_size 64 8 32 (by decide)).2 (by decide)⟩

/-- C6, refuted as stated: for 4-bit blocks of one value the product 4 is not a
multiple of 8, and `MlasQNBitBlkDataSizeInBytes` does not fail, it returns the
size 0. -/
theorem C6_counterexample :
    ¬ 8 ∣ 1 * 4 ∧
    MlasQNBitBlkDataSizeInBytes.outcome 64 4 1 = some 0 ∧
    MlasQNBitBlkDataSizeInBytes.outcome 64 4 1 ≠ none := by
  decide

/-- C6, amended: for every `(BlkBitWidth, BlkLen)` whose product is not a
multiple of 8, `MlasQNBitBlkDataSizeInBytes` does not fail but returns a size;
when the product does not overflow that size is the truncated quotient
`BlkLen * BlkBitWidth / 8`, which holds fewer bits than the block has
(less than 8 fewer). -/
theorem C6_returns_truncated_size (w BlkBitWidth BlkLen : Nat)
    (h8 : ¬ 8 ∣ BlkLen * BlkBitWidth) :
    (∃ size, MlasQNBitBlkDataSizeInBytes.outcome w BlkBitWidth BlkLen = some size) ∧
    (BlkLen * BlkBitWidth < 2 ^ w →
      MlasQNBitBlkDataSizeInBytes.outcome w BlkBitWidth BlkLen =
        some (BlkLen * BlkBitWidth / 8) ∧
      8 * (BlkLen * BlkBitWidth / 8) < BlkLen * BlkBitWidth ∧
      BlkLen * BlkBitWidth < 8 * (BlkLen * BlkBitWidth / 8) + 8) := by
  refine ⟨⟨_, rfl⟩, fun hov => ⟨?_, ?_, ?_⟩⟩
  · unfold MlasQNBitBlkDataSizeInBytes.outcome MlasQNBitBlkDataSizeInBytes
    rw [umul_eq hov]
  · omega
  · omega

/-- Witness of the amended C6: 4-bit blocks of 3 values (12 bits) get 1 byte. -/
theorem C6_returns_truncated_size_witness :
    ¬ 8 ∣ 3 * 4 ∧
    MlasQNBitBlkDataSizeInBytes.outcome 64 4 3 = some 1 ∧
    MlasQNBitBlkDataSizeInBytes.outcome 64 4 3 = some (3 * 4 / 8) ∧
    8 * (3 * 4 / 8) < 3 * 4 ∧ 3 * 4 < 8 * (3 * 4 / 8) + 8 :=
  ⟨by decide, by decide,
    (C6_returns_truncated_size 64 4 3 (by decide)).2 (by decide)⟩

/-- C7: when `BlkCount + 1` does not overflow,
`MlasQNBitZeroPointsForBlksSizeInBytes<BlkBitWidth>(BlkCount)` is
`ceil(BlkCount / 2)` for `BlkBitWidth <= 4` (two zero points per byte) and
`BlkCount` for `BlkBitWidth > 4` (one per byte); in both cases the bytes
returned, times the zero points per byte, cover `BlkCount`. -/
theorem C7_zero_points_size (w BlkBitWidth BlkCount : Nat)
    (hov : BlkCount + 1 < 2 ^ w) :
    (BlkBitWidth ≤ 4 →
      MlasQNBitZeroPointsForBlksSizeInBytes w BlkBitWidth BlkCount = ⌈(BlkCount : ℚ) / 2⌉₊ ∧
      BlkCount ≤ MlasQNBitZeroPointsForBlksSizeInBytes w BlkBitWidth BlkCount * 2) ∧
    (4 < BlkBitWidth →
      MlasQNBitZeroPointsForBlksSizeInBytes w BlkBitWidth BlkCount = BlkCount ∧
      BlkCount ≤ MlasQNBitZeroPointsForBlksSizeInBytes w BlkBitWidth BlkCount * 1) := by
  have hw := one_le_of_lt_two_pow w BlkCount hov
  constructor
  · intro hb
    have h : MlasQNBitZeroPointsForBlksSizeInBytes w BlkBitWidth BlkCount =
        (BlkCount + 1) / 2 := by
      unfold MlasQNBitZeroPointsForBlksSizeInBytes
      rw [if_pos hb, MlasDivRoundup_of_lt w BlkCount 2 hw (by omega) (by omega)]
      rfl
    rw [natCeil_div2, h]
    exact ⟨rfl, by omega⟩
  · intro hb
    have h : MlasQNBitZeroPointsForBlksSizeInBytes w BlkBitWidth BlkCount = BlkCount := by
      unfold MlasQNBitZeroPointsForBlksSizeInBytes
      rw [if_neg (by omega)]
    rw [h]
    exact ⟨rfl, by omega⟩

/-- Witness of C7: five 4-bit zero points take 3 bytes, five 8-bit ones 5 bytes. -/
theorem C7_zero_points_size_witness :
    MlasQNBitZeroPointsForBlksSizeInBytes 64 4 5 = 3 ∧
    MlasQNBitZeroPointsForBlksSizeInBytes 64 8 5 = 5 ∧
    (MlasQNBitZeroPointsForBlksSizeInBytes 64 4 5 = ⌈((5 : Nat) : ℚ) / 2⌉₊ ∧
      5 ≤ MlasQNBitZeroPointsForBlksSizeInBytes 64 4 5 * 2) ∧
    (MlasQNBitZeroPointsForBlksSizeInBytes 64 8 5 = 5 ∧
      5 ≤ MlasQNBitZeroPointsForBlksSizeInBytes 64 8 5 * 1) :=
  ⟨by decide, by decide, (C7_zero_points_size 64 4 5 (by decide)).1 (by decide),
    (C7_zero_points_size 64 8 5 (by decide)).2 (by decide)⟩

/-! ## The block-sum sub-region and the dequantize-B buffer -/

/-- C8, refuted as stated: for `N = 16`, `BlockCountK = 1` and a 4-byte `T` the
constructor reserves 64 bytes between `QuantBBlkSum` and `PackedQuantBScale`,
that is 16 elements of `T`, not the single element `ceil(16/16) * 1 = 1`. -/
theorem C8_counterexample :
    (PackedQuantBDataStruct.construct 64 true 4 4 0 16 1 32).PackedQuantBScale -
        (PackedQuantBDataStruct.construct 64 true 4 4 0 16 1 32).QuantBBlkSum = 16 * 4 ∧
    ⌈((16 : Nat) : ℚ) / 16⌉₊ * 1 = 1 ∧
    (PackedQuantBDataStruct.construct 64 true 4 4 0 16 1 32).PackedQuantBScale -
        (PackedQuantBDataStruct.construct 64 true 4 4 0 16 1 32).QuantBBlkSum ≠
      ⌈((16 : Nat) : ℚ) / 16⌉₊ * 1 * 4 := by
  have h : ⌈((16 : Nat) : ℚ) / 16⌉₊ = 1 := by rw [natCeil_div16]
  rw [h]
  decide

/-- C8, amended: when the sizes do not wrap, the block-sum sub-region reserved
between `QuantBBlkSum` and `PackedQuantBScale` has room for
`ceil(N/16) * BlockCountK * 16` elements of `T`: sixteen sums, one per column,
for each (N-group-of-16, K-block) pair. -/
theorem C8_block_sum_region_size (w : Nat) (amd64_ix86 : Bool) (sizeofT : Nat)
    (BlkBitWidth : Int) (base N BlockCountK BlkLen : Nat) (s : PackedQuantBDataStruct)
    (hs : s = PackedQuantBDataStruct.construct w amd64_ix86 sizeofT BlkBitWidth base N
      BlockCountK BlkLen)
    (hN : N + 16 - 1 < 2 ^ w)
    (hsum : s.QuantBBlkSum + ⌈(N : ℚ) / 16⌉₊ * BlockCountK * 16 * sizeofT < 2 ^ w) :
    s.PackedQuantBScale - s.QuantBBlkSum = ⌈(N : ℚ) / 16⌉₊ * BlockCountK * 16 * sizeofT := by
  subst hs
  have hw : 1 ≤ w := one_le_of_lt_two_pow w N (by omega)
  have hS := BlkSumSize_eq_blkSumSize w sizeofT N BlockCountK hw hN
    (by unfold blkSumSize; omega)
  have hr := construct_PackedQuantBScale_of_lt w amd64_ix86 sizeofT BlkBitWidth base N
    BlockCountK BlkLen (by rw [hS]; exact hsum)
  rw [hr, hS]
  unfold blkSumSize
  omega

/-- Witness of the amended C8: 17 columns and 3 blocks of a 4-byte `T` get
`2 * 3 * 16` elements, 384 bytes. -/
theorem C8_block_sum_region_size_witness :
    (PackedQuantBDataStruct.construct 64 true 4 4 1001 17 3 32).PackedQuantBScale -
        (PackedQuantBDataStruct.construct 64 true 4 4 1001 17 3 32).QuantBBlkSum =
      ⌈((17 : Nat) : ℚ) / 16⌉₊ * 3 * 16 * 4 :=
  C8_block_sum_region_size 64 true 4 4 1001 17 3 32 _ rfl (by decide)
    (by rw [natCeil_div16]; decide)

/-- C9: when nothing overflows and `BlkLen >= 1`, the buffer size documented for
the dequantize-B kernels,
`(CountN + 16 - 1) / 16 * 16 * (CountK + BlkLen - 1) / BlkLen * BlkLen`
evaluated left to right, is at least the number of useful elements
`(CountN + 16 - 1) / 16 * 16 * CountK`. -/
theorem C9_dequant_buffer_sufficient (w CountN CountK BlkLen : Nat) (hB : 1 ≤ BlkLen)
    (h1 : CountN + 16 - 1 < 2 ^ w) (h2 : CountK + BlkLen - 1 < 2 ^ w)
    (h3 : (CountN + 16 - 1) / 16 * 16 * (CountK + BlkLen - 1) < 2 ^ w) :
    dequantBUsefulElements w CountN CountK ≤ dequantBBufferElements w CountN CountK BlkLen := by
  have hw : 1 ≤ w := one_le_of_lt_two_pow w CountN (by omega)
  have hA : usub w (uadd w CountN 16) 1 = CountN + 16 - 1 := by
    rw [usub_uadd_one w CountN 16 hw (by omega), Nat.mod_eq_of_lt h1]
  have hK : usub w (uadd w CountK BlkLen) 1 = CountK + BlkLen - 1 := by
    rw [usub_uadd_one w CountK BlkLen hw hB, Nat.mod_eq_of_lt h2]
  have h16 : (CountN + 16 - 1) / 16 * 16 < 2 ^ w :=
    Nat.lt_of_le_of_lt (Nat.div_mul_le_self _ _) h1
  unfold dequantBUsefulElements dequantBBufferElements
  rw [hA, hK, umul_eq h16, umul_eq h3]
  generalize (CountN + 16 - 1) / 16 * 16 = A at h3 ⊢
  have hsplit : A * (CountK + BlkLen - 1) = A * CountK + A * (BlkLen - 1) := by
    rw [← Nat.mul_add]
    congr 1
    omega
  have hdm := Nat.div_add_mod (A * (CountK + BlkLen - 1)) BlkLen
  have hmod := Nat.mod_lt (A * (CountK + BlkLen - 1)) hB
  have hbuf : A * (CountK + BlkLen - 1) / BlkLen * BlkLen < 2 ^ w :=
    Nat.lt_of_le_of_lt (Nat.div_mul_le_self _ _) h3
  have huse : A * CountK < 2 ^ w := by omega
  rw [umul_eq hbuf, umul_eq huse, Nat.mul_comm _ BlkLen]
  rcases Nat.eq_zero_or_pos A with h0 | h0
  · subst h0
    simp
  · have hge : BlkLen - 1 ≤ A * (BlkLen - 1) := Nat.le_mul_of_pos_left _ h0
    omega

/-- Witness of C9: 17 columns, 100 rows and blocks of 32 values need
`32 * 131 / 32 * 32 = 4192` elements, of which `32 * 100 = 3200` are useful. -/
theorem C9_dequant_buffer_sufficient_witness :
    dequantBUsefulElements 64 17 100 = 3200 ∧
    dequantBBufferElements 64 17 100 32 = 4192 ∧
    dequantBUsefulElements 64 17 100 ≤ dequantBBufferElements 64 17 100 32 :=
  ⟨by decide, by decide,
    C9_dequant_buffer_sufficient 64 17 100 32 (by decide) (by decide) (by decide) (by decide)⟩

/-! ## The dispatch table -/

theorem read_assign (d : MLAS_QNBIT_GEMM_DISPATCH) (s t : Slot) (f : FnPtr) :
    (d.assign s f).read t = if t = s then f else d.read t := by
  cases s <;> cases t <;> rfl

theorem read_defaultConstructed (s : Slot) :
    MLAS_QNBIT_GEMM_DISPATCH.defaultConstructed.read s = none := by
  cases s <;> rfl

theorem read_foldl_assign (assignments : List (Slot × FnPtr)) (d : MLAS_QNBIT_GEMM_DISPATCH)
    (s : Slot)
    (h : (assignments.foldl (fun d a => d.assign a.1 a.2) d).read s ≠ none) :
    d.read s ≠ none ∨ ∃ f, (s, f) ∈ assignments ∧ f ≠ none := by
  induction assignments generalizing d with
  | nil => exact Or.inl h
  | cons a rest ih =>
    rw [List.foldl_cons] at h
    rcases ih _ h with h1 | ⟨f, hf, hne⟩
    · rw [read_assign] at h1
      by_cases hs : s = a.1
      · rw [if_pos hs] at h1
        refine Or.inr ⟨a.2, ?_, h1⟩
        rw [hs]
        exact List.mem_cons_self _ _
      · rw [if_neg hs] at h1
        exact Or.inl h1
    · exact Or.inr ⟨f, List.mem_cons_of_mem _ hf, hne⟩

/-- C10: a default-constructed `MLAS_QNBIT_GEMM_DISPATCH` has 20 operation
slots and every one of them is null; and in a table set up by member
assignments on a default-constructed one, a slot that reads as bound was
assigned a non-null pointer by one of them, so a slot never assigned stays
null. -/
theorem C10_default_slots_null :
    MLAS_QNBIT_GEMM_DISPATCH.defaultConstructed.slots = List.replicate 20 none ∧
    (∀ s : Slot, MLAS_QNBIT_GEMM_DISPATCH.defaultConstructed.read s = none) ∧
    (∀ (assignments : List (Slot × FnPtr)) (s : Slot),
      (MLAS_QNBIT_GEMM_DISPATCH.setUp assignments).read s ≠ none →
        ∃ f, (s, f) ∈ assignments ∧ f ≠ none) := by
  refine ⟨rfl, read_defaultConstructed, ?_⟩
  intro assignments s h
  rcases read_foldl_assign assignments _ s h with h1 | h1
  · exact absurd (read_defaultConstructed s) h1
  · exact h1

/-- Witness of C10: after binding the single slot `SQ4BitGemmM1Kernel_CompFp32`,
that slot reads as bound, it is among the assignments, and
`SQ4BitGemmKernel_CompInt8` still reads as null. -/
theorem C10_default_slots_null_witness :
    (MLAS_QNBIT_GEMM_DISPATCH.setUp [(Slot.SQ4BitGemmM1Kernel_CompFp32, some 4096)]).read
        Slot.SQ4BitGemmM1Kernel_CompFp32 = some 4096 ∧
    (MLAS_QNBIT_GEMM_DISPATCH.setUp [(Slot.SQ4BitGemmM1Kernel_CompFp32, some 4096)]).read
        Slot.SQ4BitGemmKernel_CompInt8 = none ∧
    ∃ f, (Slot.SQ4BitGemmM1Kernel_CompFp32, f) ∈
        [(Slot.SQ4BitGemmM1Kernel_CompFp32, (some 4096 : FnPtr))] ∧ f ≠ none :=
  ⟨by decide, by decide,
    C10_default_slots_null.2.2 [(Slot.SQ4BitGemmM1Kernel_CompFp32, some 4096)]
      Slot.SQ4BitGemmM1Kernel_CompFp32 (by decide)⟩

/-! ## `MlasAlignAddress` as a round-up to a power of two -/

/-- Without wrap-around the aligned address lies in `[x, x + 2 ^ k)`. -/
theorem MlasAlignAddress_bounds (w k x : Nat) (hk : k < w) (h : x + 2 ^ k - 1 < 2 ^ w) :
    x ≤ MlasAlignAddress w x (2 ^ k) ∧ MlasAlignAddress w x (2 ^ k) < x + 2 ^ k := by
  rw [MlasAlignAddress_pow w k x hk, Nat.mod_eq_of_lt h]
  have hpos : 0 < 2 ^ k := Nat.two_pow_pos k
  have hmod := Nat.mod_lt (x + 2 ^ k - 1) hpos
  generalize (x + 2 ^ k - 1) % 2 ^ k = r at hmod
  generalize 2 ^ k = a at hpos hmod
  omega

/-- Two multiples of `a` that are less than `a` apart are in order. -/
theorem le_of_dvd_of_lt_add {a r m : Nat} (hr : a ∣ r) (hm : a ∣ m) (h : r < m + a) :
    r ≤ m := by
  by_contra hlt
  have hpos : 0 < r - m := by omega
  have hle : a ≤ r - m := Nat.le_of_dvd hpos (Nat.dvd_sub' hr hm)
  omega

/-- C11: for an alignment that is a power of two, when `addr + alignment - 1`
does not wrap, `MlasAlignAddress(addr, alignment)` is the least multiple of
`alignment` that is `>= addr`: it is a multiple of `alignment`, it lies in
`[addr, addr + alignment)`, it is `addr` itself when `addr` is already aligned,
and aligning it again changes nothing. -/
theorem C11_align_address_least_multiple (w addr alignment : Nat)
    (hpow : ∃ k, alignment = 2 ^ k) (hal : alignment < 2 ^ w)
    (h : addr + alignment - 1 < 2 ^ w) :
    IsLeast {m : Nat | alignment ∣ m ∧ addr ≤ m} (MlasAlignAddress w addr alignment) ∧
    alignment ∣ MlasAlignAddress w addr alignment ∧
    addr ≤ MlasAlignAddress w addr alignment ∧
    MlasAlignAddress w addr alignment < addr + alignment ∧
    (alignment ∣ addr → MlasAlignAddress w addr alignment = addr) ∧
    MlasAlignAddress w (MlasAlignAddress w addr alignment) alignment =
      MlasAlignAddress w addr alignment := by
  obtain ⟨k, rfl⟩ := hpow
  have hk : k < w := (Nat.pow_lt_pow_iff_right (by omega)).1 hal
  have hpos : 0 < 2 ^ k := Nat.two_pow_pos k
  -- an aligned address is left alone, whenever rounding it up does not wrap
  have fixed : ∀ x, x + 2 ^ k - 1 < 2 ^ w → 2 ^ k ∣ x → MlasAlignAddress w x (2 ^ k) = x := by
    intro x hx hdvd
    have hb := MlasAlignAddress_bounds w k x hk hx
    have hle := le_of_dvd_of_lt_add (MlasAlignAddress_dvd w k x hk) hdvd hb.2
    omega
  have hdvd := MlasAlignAddress_dvd w k addr hk
  have hb := MlasAlignAddress_bounds w k addr hk h
  refine ⟨⟨⟨hdvd, hb.1⟩, ?_⟩, hdvd, hb.1, hb.2, fixed addr h, ?_⟩
  · rintro m ⟨hm1, hm2⟩
    exact le_of_dvd_of_lt_add hdvd hm1 (by omega)
  · apply fixed _ _ hdvd
    -- the result is a multiple of `2 ^ k` below `2 ^ w`, so one more step fits
    have hlt : MlasAlignAddress w addr (2 ^ k) < 2 ^ w := by omega
    have hle : 2 ^ k ≤ 2 ^ w - MlasAlignAddress w addr (2 ^ k) :=
      Nat.le_of_dvd (by omega)
        (Nat.dvd_sub' (Nat.pow_dvd_pow 2 (Nat.le_of_lt hk)) hdvd)
    omega

/-- Witness of C11 on a 64-bit target: the address 1001 is rounded up to 1008
for the alignment 16. -/
theorem C11_align_address_least_multiple_witness :
    MlasAlignAddress 64 1001 16 = 1008 ∧
    MlasAlignAddress 64 1008 16 = 1008 ∧
    IsLeast {m : Nat | 16 ∣ m ∧ 1001 ≤ m} (MlasAlignAddress 64 1001 16) ∧
    16 ∣ MlasAlignAddress 64 1001 16 ∧
    1001 ≤ MlasAlignAddress 64 1001 16 ∧
    MlasAlignAddress 64 1001 16 < 1001 + 16 ∧
    (16 ∣ 1001 → MlasAlignAddress 64 1001 16 = 1001) ∧
    MlasAlignAddress 64 (MlasAlignAddress 64 1001 16) 16 = MlasAlignAddress 64 1001 16 :=
  ⟨by decide, by decide,
    C11_align_address_least_multiple 64 1001 16 ⟨4, by decide⟩ (by decide) (by decide)⟩

/-! ## Alignment of the scale array -/

theorem dvd_two_pow_64 {w : Nat} (hw : 7 ≤ w) : 64 ∣ 2 ^ w := by
  have h : (64 : Nat) = 2 ^ 6 := by norm_num
  rw [h]
  exact Nat.pow_dvd_pow 2 (by omega)

/-- For a 4-byte `T` the `BlkSumSize` the constructor computes is a multiple of
64, wrapped or not. -/
theorem BlkSumSize_dvd {w : Nat} (hw : 7 ≤ w) (N BlockCountK : Nat) :
    64 ∣ BlkSumSize w 4 N BlockCountK := by
  have hM := dvd_two_pow_64 hw
  have h16M : 16 ∣ 2 ^ w := Dvd.dvd.trans (by norm_num) hM
  unfold BlkSumSize
  generalize umul w (MlasDivRoundup w N 16) BlockCountK = c
  have h16 : 16 ∣ umul w c 16 := (Nat.dvd_mod_iff h16M).2 (Nat.dvd_mul_left 16 c)
  obtain ⟨t, ht⟩ := h16
  rw [ht]
  exact (Nat.dvd_mod_iff hM).2 ⟨t, by ring⟩

/-- C12: for a 4-byte `T` the scale pointer `PackedQuantBScale` located by the
constructor is a multiple of 64 for every base address, `N`, `BlockCountK` and
`BlkLen`, with no alignment step of its own: `QuantBBlkSum` is 64-byte aligned
and the block-sum size `ceil(N/16) * BlockCountK * 16 * 4` is a multiple of 64
(as is the size the constructor computes, even when it wraps). -/
theorem C12_scale_pointer_aligned (w : Nat) (hw : 7 ≤ w) (amd64_ix86 : Bool)
    (BlkBitWidth : Int) (base N BlockCountK BlkLen : Nat) :
    64 ∣ blkSumSize 4 N BlockCountK ∧
    64 ∣ BlkSumSize w 4 N BlockCountK ∧
    64 ∣ (PackedQuantBDataStruct.construct w amd64_ix86 4 BlkBitWidth base N BlockCountK
      BlkLen).PackedQuantBScale := by
  refine ⟨?_, BlkSumSize_dvd hw N BlockCountK, ?_⟩
  · unfold blkSumSize
    exact ⟨⌈(N : ℚ) / 16⌉₊ * BlockCountK, by ring⟩
  · rw [construct_PackedQuantBScale, construct_QuantBBlkSum,
      MlasQNBitQuantBBlkSumAlignment_eq hw]
    exact (Nat.dvd_mod_iff (dvd_two_pow_64 hw)).2
      (Nat.dvd_add (align64_dvd hw _) (BlkSumSize_dvd hw N BlockCountK))

/-- Witness of C12 on a 64-bit AMD64 target: from the misaligned base address
1001 the scale array starts at `2240 = 35 * 64`. -/
theorem C12_scale_pointer_aligned_witness :
    (PackedQuantBDataStruct.construct 64 true 4 4 1001 17 3 32).PackedQuantBScale = 2240 ∧
    BlkSumSize 64 4 17 3 = 384 ∧
    64 ∣ blkSumSize 4 17 3 ∧
    64 ∣ BlkSumSize 64 4 17 3 ∧
    64 ∣ (PackedQuantBDataStruct.construct 64 true 4 4 1001 17 3 32).PackedQuantBScale :=
  ⟨by decide, by decide, C12_scale_pointer_aligned 64 (by decide) true 4 1001 17 3 32⟩

end QNBitGemm
